import Mathlib

/-!
Shallow embedding of the binarized-network layers of this repository:

* `src/tiny_cnn/layers/binarized_fc_layer.h`  (class `binarized_fc_layer`)
* `src/tiny_dnn/layers/binarynet_layer.h`     (class `binarynet_layer`)
* `src/tiny_dnn/layers/bnn_conv_layer.h`      (class `bnn_conv_layer`)

Modelling conventions:

* `float_t` values are modelled by `ℚ`; the verified claims only involve
  sign tests and small exactly-representable values, on which binary
  floating point and rational arithmetic agree.
* `size_t` / `serial_size_t` index arithmetic is modelled by `Nat`; where
  C++ unsigned wraparound actually matters (the threshold store of
  `binarynet_layer`, a `std::vector<size_t>` assigned from a possibly
  negative `int`) the reduction modulo `2^64` is written explicitly.
* `std::vector` reads `v[i]` are modelled by `List.getD` and writes by
  `List.set`; all verified statements only touch in-bounds indices, where
  these coincide with the C++ behaviour.
* an input stream is modelled as a list of already-lexed whitespace
  separated tokens plus a fail flag, mirroring `std::istream` formatted
  extraction: once the fail state is set, later extractions are no-ops
  that leave the target variable unmodified; an extraction that is
  attempted but hits end-of-stream stores a zero value (C++11 semantics),
  and a `bool` extraction of a numeric token other than 0/1 stores `true`
  and sets the fail state.
-/

/-- The modulus of `size_t` arithmetic (LP64 platforms). -/
def size_t_mod : Nat := 2 ^ 64

/-- C++ float-to-int conversion: truncation toward zero, on the `ℚ` model of
`float_t`.  (`Rat.num`/`Rat.den` are the reduced numerator/denominator, and
`Int.tdiv` truncates toward zero.) -/
def cppToInt (q : ℚ) : Int := q.num.tdiv q.den

/-- `float2bipolar(in, out)`: identical utility in all three layer headers,
`out[i] = in[i] >= 0 ? true : false` for every index `i < in.size()`. -/
def float2bipolar (vin : List ℚ) (vout : List Bool) : List Bool :=
  (List.range vin.length).foldl
    (fun o i => o.set i (if vin.getD i 0 ≥ 0 then true else false)) vout

/-! ### `binarized_fc_layer` (src/tiny_cnn/layers/binarized_fc_layer.h) -/

/-- State of a `binarized_fc_layer<Activation>`: sizes from the `layer` base
plus the binarized weight store `Wbin_`. -/
structure BinarizedFcLayer where
  in_size : Nat
  out_size : Nat
  Wbin : List Bool
deriving DecidableEq

/-- The `binarized_fc_layer(in_dim, out_dim)` constructor: all binarized
weights initialized to `false`, `connection_size()` of them. -/
def binarized_fc_layer (in_dim out_dim : Nat) : BinarizedFcLayer :=
  { in_size := in_dim, out_size := out_dim
    Wbin := List.replicate (in_dim * out_dim) false }

/-- `binarized_fc_layer::connection_size()`. -/
def binarized_fc_connection_size (L : BinarizedFcLayer) : Nat :=
  L.in_size * L.out_size

/-- `binarized_fc_layer::fan_in_size()`. -/
def binarized_fc_fan_in_size (L : BinarizedFcLayer) : Nat := L.in_size

/-- `binarized_fc_layer::post_update()`: refresh `Wbin_` from the float
weight tensor `W_` (owned by the external `layer` base). -/
def fc_post_update (W : List ℚ) (L : BinarizedFcLayer) : BinarizedFcLayer :=
  { L with Wbin := float2bipolar W L.Wbin }

/-- `binarized_fc_layer::forward_propagation(in, index)` without a chained
next layer.  `h` is the externally supplied activation object `h_`, applied
as `h_.f(a, i)` to the accumulator vector.  The accumulator loop adds `+1`
when `Wbin_[c*out_size_ + i] == in_bin[c]` and `-1` otherwise. -/
def binarized_fc_forward (L : BinarizedFcLayer) (h : List ℚ → Nat → ℚ)
    (vin : List ℚ) : List ℚ :=
  let in_bin := float2bipolar vin (List.replicate L.in_size false)
  let a : List ℚ := (List.range L.out_size).map (fun i =>
    (List.range L.in_size).foldl
      (fun acc c =>
        acc + (if (L.Wbin.getD (c * L.out_size + i) false) == (in_bin.getD c false)
               then 1 else -1)) 0)
  (List.range L.out_size).map (fun i => h a i)

/-- `binarized_fc_layer::back_propagation`: `throw "Not yet implemented"` as
its first statement; the pair records the (unchanged) layer state and the
thrown error. -/
def fc_back_propagation (L : BinarizedFcLayer) (curr_delta : List ℚ) :
    BinarizedFcLayer × Except String (List ℚ) :=
  (L, Except.error "Not yet implemented")

/-- `binarized_fc_layer::back_propagation_2nd`: `throw "Not yet implemented"`. -/
def fc_back_propagation_2nd (L : BinarizedFcLayer) (current_delta2 : List ℚ) :
    BinarizedFcLayer × Except String (List ℚ) :=
  (L, Except.error "Not yet implemented")

/-! ### `binarynet_layer` (src/tiny_dnn/layers/binarynet_layer.h) -/

/-- State of a `binarynet_layer<Activation>`: sizes from the `layer` base,
the binarized weight store `Wbin_` and the threshold store `Threshold_`
(a `std::vector<size_t>`, hence `List Nat`). -/
structure BinarynetLayer where
  in_size : Nat
  out_size : Nat
  Wbin : List Bool
  Threshold : List Nat
deriving DecidableEq

/-- The `binarynet_layer(in_dim, out_dim, offload)` constructor:
`in_size_*out_size_` weights initialized `false`, `out_size_` thresholds
initialized `0`. -/
def binarynet_layer (in_dim out_dim : Nat) : BinarynetLayer :=
  { in_size := in_dim, out_size := out_dim
    Wbin := List.replicate (in_dim * out_dim) false
    Threshold := List.replicate out_dim 0 }

/-- `binarynet_layer::connection_size()`. -/
def binarynet_connection_size (L : BinarynetLayer) : Nat :=
  L.in_size * L.out_size + 2 * L.out_size

/-- `binarynet_layer::fan_in_size()`. -/
def binarynet_fan_in_size (L : BinarynetLayer) : Nat := L.in_size

/-- `binarynet_layer::post_update()`. -/
def binarynet_post_update (W : List ℚ) (L : BinarynetLayer) : BinarynetLayer :=
  { L with Wbin := float2bipolar W L.Wbin }

/-- `binarynet_layer::set_threshold_from_batchnorm(index, mean, gamma,
invstd, beta)`.  `int thres = mean - (beta / (gamma * invstd));` is float
arithmetic truncated to `int`; when `gamma * invstd < 0` the threshold is
negated and every weight bit `Wbin_[c * out_size_ + index]`, `c` in the
fan-in range, is flipped in place.  `Threshold_[index] = (thres +
fan_in_size()) / 2` mixes `int` and `size_t`, so it is carried out as
unsigned 64-bit arithmetic (the C++ code has this one store after the
`if`; it is duplicated into the two branches here). -/
def set_threshold_from_batchnorm (L : BinarynetLayer) (index : Nat)
    (mean gamma invstd beta : ℚ) : BinarynetLayer :=
  let thres : Int := cppToInt (mean - beta / (gamma * invstd))
  if gamma * invstd < 0 then
    let thres' := -thres
    let Wbin' := (List.range L.in_size).foldl
      (fun W c => W.set (c * L.out_size + index)
        (!(W.getD (c * L.out_size + index) false))) L.Wbin
    { L with Wbin := Wbin'
             Threshold := L.Threshold.set index
               (((thres' + (L.in_size : Int)) % (size_t_mod : Int)).toNat / 2) }
  else
    { L with Threshold := L.Threshold.set index
               (((thres + (L.in_size : Int)) % (size_t_mod : Int)).toNat / 2) }

/-- `binarynet_layer::forward_propagation(in, index)` without a chained next
layer.  `offload` models the `Offload_` member (`0` = `none`).  The
software path accumulates the popcount of matching bit pairs and compares
against `Threshold_[i]`; the offload path maps result bits to `±1`. -/
def binarynet_forward (L : BinarynetLayer)
    (offload : Option (List Bool → List Nat → List Bool → List Bool))
    (vin : List ℚ) : List ℚ :=
  let in_bin := float2bipolar vin (List.replicate L.in_size false)
  match offload with
  | some f =>
    let res := f in_bin L.Threshold L.Wbin
    (List.range L.out_size).map (fun i => if res.getD i false then 1 else -1)
  | none =>
    (List.range L.out_size).map (fun i =>
      let a : ℚ := (List.range L.in_size).foldl
        (fun acc c =>
          acc + (if (L.Wbin.getD (c * L.out_size + i) false) == (in_bin.getD c false)
                 then 1 else 0)) 0
      if a ≥ (L.Threshold.getD i 0 : ℚ) then 1 else -1)

/-- `binarynet_layer::back_propagation`: `throw "Not yet implemented"`. -/
def binarynet_back_propagation (L : BinarynetLayer) (curr_delta : List ℚ) :
    BinarynetLayer × Except String (List ℚ) :=
  (L, Except.error "Not yet implemented")

/-- `binarynet_layer::back_propagation_2nd`: `throw "Not yet implemented"`. -/
def binarynet_back_propagation_2nd (L : BinarynetLayer) (current_delta2 : List ℚ) :
    BinarynetLayer × Except String (List ℚ) :=
  (L, Except.error "Not yet implemented")

/-- `binarynet_layer::save(os)`: one numeric token (one line) per weight bit
(`1`/`0`), followed by one token per threshold. -/
def binarynet_save (L : BinarynetLayer) : List Nat :=
  L.Wbin.map (fun w => if w then 1 else 0) ++ L.Threshold

/-- Token-stream model of a `std::istream`: remaining tokens plus fail flag. -/
structure BnnStream where
  toks : List Nat
  failed : Bool
deriving DecidableEq

/-- `is >> w` for `bool w` (default `noboolalpha` formatting): a no-op on an
already-failed stream; end-of-stream stores `false` and fails; token `0`/`1`
stores the bit; any other numeric token stores `true` and fails. -/
def readBool (s : BnnStream) (w : Bool) : BnnStream × Bool :=
  if s.failed then (s, w)
  else
    match s.toks with
    | [] => (⟨[], true⟩, false)
    | t :: rest =>
      if t = 0 then (⟨rest, s.failed⟩, false)
      else if t = 1 then (⟨rest, s.failed⟩, true)
      else (⟨rest, true⟩, true)

/-- `is >> thr` for `size_t thr`: a no-op on an already-failed stream;
end-of-stream stores `0` and fails; otherwise stores the token. -/
def readSizeT (s : BnnStream) (cur : Nat) : BnnStream × Nat :=
  if s.failed then (s, cur)
  else
    match s.toks with
    | [] => (⟨[], true⟩, 0)
    | t :: rest => (⟨rest, s.failed⟩, t)

/-- The weight loop of `binarynet_layer::load`: `for i in [0, count)`
`{ is >> w; Wbin_[i] = w; }` starting at position `i`, with `w` the single
`bool` variable shared by all iterations. -/
def loadBits (s : BnnStream) (w : Bool) (W : List Bool) (i count : Nat) :
    BnnStream × Bool × List Bool :=
  match count with
  | 0 => (s, w, W)
  | c + 1 =>
    let r := readBool s w
    loadBits r.1 r.2 (W.set i r.2) (i + 1) c

/-- The threshold loop of `binarynet_layer::load`:
`for (auto& thr : Threshold_) is >> thr;`. -/
def loadThresholds (s : BnnStream) (T : List Nat) (i count : Nat) :
    BnnStream × List Nat :=
  match count with
  | 0 => (s, T)
  | c + 1 =>
    let r := readSizeT s (T.getD i 0)
    loadThresholds r.1 (T.set i r.2) (i + 1) c

/-- `binarynet_layer::load(is)`: read `in_size_ * out_size_` weight bits,
then one token per threshold.  (The C++ local `bool w` is uninitialized; it
is only forwarded unread when the stream is already failed on entry, and is
modelled as `false`.) -/
def binarynet_load (L : BinarynetLayer) (s : BnnStream) :
    BnnStream × BinarynetLayer :=
  let r1 := loadBits s false L.Wbin 0 (L.in_size * L.out_size)
  let r2 := loadThresholds r1.1 L.Threshold 0 L.Threshold.length
  (r2.1, { L with Wbin := r1.2.2, Threshold := r2.2 })

/-! ### `bnn_conv_layer` (src/tiny_dnn/layers/bnn_conv_layer.h) -/

/-- State of a `bnn_conv_layer`: the convolution geometry, the accumulation
mode and the binarized weight store. -/
structure BnnConvLayer where
  in_width : Nat
  in_height : Nat
  window_size : Nat
  in_channels : Nat
  out_channels : Nat
  use_popcount : Bool
  Wbin : List Bool
  out_width : Nat
  out_height : Nat
deriving DecidableEq

/-- The `bnn_conv_layer(...)` constructor (without the optional binary
parameter file): `Wbin_` holds `out_channels * in_channels * window_size *
window_size` bits, all `false`; `out_width_`/`out_height_` are the valid
padding, stride-1 output sizes. -/
def bnn_conv_layer (in_width in_height window_size in_channels out_channels : Nat)
    (use_popcount : Bool) : BnnConvLayer :=
  { in_width := in_width, in_height := in_height, window_size := window_size
    in_channels := in_channels, out_channels := out_channels
    use_popcount := use_popcount
    Wbin := List.replicate (out_channels * in_channels * window_size * window_size) false
    out_width := in_width - window_size + 1
    out_height := in_height - window_size + 1 }

/-- `bnn_conv_layer::fan_in_size()`. -/
def bnn_conv_fan_in_size (L : BnnConvLayer) : Nat :=
  L.in_channels * L.window_size * L.window_size

/-- `bnn_conv_layer::connection_size()`. -/
def bnn_conv_connection_size (L : BnnConvLayer) : Nat :=
  L.out_height * L.out_width * bnn_conv_fan_in_size L

/-- `bnn_conv_layer::post_update()`. -/
def bnn_conv_post_update (W : List ℚ) (L : BnnConvLayer) : BnnConvLayer :=
  { L with Wbin := float2bipolar W L.Wbin }

/-- `bnn_conv_layer::loadFromBinaryFile`: the file is a sequence of 8-byte
unsigned integers, one per weight bit in linear order; `Wbin_[line] =
(e == 1)`.  A read past the end of the file leaves `e` at its per-iteration
initial value `0`, which the `getD` default models. -/
def loadFromBinaryFile (words : List Nat) (W : List Bool) : List Bool :=
  (List.range W.length).foldl
    (fun W' line => W'.set line (words.getD line 0 == 1)) W

/-- The per-pair accumulation of `bnn_conv_layer::forward_propagation`:
`+1` on matching bits, otherwise `0` in popcount mode and `-1` in signed
mode. -/
def conv_match (use_popcount : Bool) (w b : Bool) : Int :=
  if w == b then 1 else if use_popcount then 0 else -1

/-- The accumulator of `bnn_conv_layer::forward_propagation` for one output
position `(oc, oy, ox)`: `int acc = 0` followed by the `ic`/`ky`/`kx` loops
with `weight_base = oc*(k*k*in_channels) + k*k*ic` and
`input_base = ic*(in_width*in_height) + oy*in_width + ox`. -/
def conv_acc (L : BnnConvLayer) (in_bin : List Bool) (oc oy ox : Nat) : Int :=
  (List.range L.in_channels).foldl (fun acc ic =>
    let weight_base := oc * (L.window_size * L.window_size * L.in_channels)
      + L.window_size * L.window_size * ic
    let input_base := ic * (L.in_width * L.in_height) + oy * L.in_width + ox
    (List.range L.window_size).foldl (fun acc ky =>
      (List.range L.window_size).foldl (fun acc kx =>
        acc + conv_match L.use_popcount
          (L.Wbin.getD (weight_base + ky * L.window_size + kx) false)
          (in_bin.getD (input_base + ky * L.in_width + kx) false)) acc) acc) 0

/-- `bnn_conv_layer::forward_propagation(in_raw, worker_index)` without a
chained next layer.  The output buffer `output_[worker_index]` is modelled
as a function over linear indices (`out0` is its previous contents); each
`(oc, oy, ox)` writes `out[oc*out_height*out_width + oy*out_width + ox] =
acc`. -/
def bnn_conv_forward (L : BnnConvLayer) (vin : List ℚ) (out0 : Nat → ℚ) :
    Nat → ℚ :=
  let in_bin := float2bipolar vin (List.replicate vin.length false)
  (List.range L.out_channels).foldl (fun out oc =>
    (List.range L.out_height).foldl (fun out oy =>
      (List.range L.out_width).foldl (fun out ox =>
        Function.update out
          (oc * L.out_height * L.out_width + oy * L.out_width + ox)
          ((conv_acc L in_bin oc oy ox : Int) : ℚ)) out) out) out0

/-- `bnn_conv_layer::back_propagation`: `throw "Not implemented"`. -/
def bnn_conv_back_propagation (L : BnnConvLayer) (curr_delta : List ℚ) :
    BnnConvLayer × Except String (List ℚ) :=
  (L, Except.error "Not implemented")

/-- `bnn_conv_layer::back_propagation_2nd`: `throw "Not implemented"`. -/
def bnn_conv_back_propagation_2nd (L : BnnConvLayer) (current_delta2 : List ℚ) :
    BnnConvLayer × Except String (List ℚ) :=
  (L, Except.error "Not implemented")

/-! ### Accumulation-mode kernels (the inner loops of the forward passes,
over an explicit list of weight-bit/input-bit pairs) -/

/-- Signed-mode accumulator: `acc += (w == b) ? +1 : -1` over the pairs
(`binarized_fc_layer::forward_propagation`, and the signed branch of
`bnn_conv_layer`). -/
def acc_signed (pairs : List (Bool × Bool)) : Int :=
  pairs.foldl (fun acc p => acc + (if p.1 == p.2 then 1 else -1)) 0

/-- Popcount-mode accumulator: `acc += (w == b) ? +1 : 0` over the pairs
(`binarynet_layer::forward_propagation`, and the popcount branch of
`bnn_conv_layer`). -/
def acc_popcount (pairs : List (Bool × Bool)) : Int :=
  pairs.foldl (fun acc p => acc + (if p.1 == p.2 then 1 else 0)) 0

/-- Writing the elements of `xs` into consecutive positions of `W` starting
at index `i`: the net effect of the sequential load loops on a stream that
supplies enough tokens. -/
def listSetRange {α : Type} (W : List α) (i : Nat) (xs : List α) : List α :=
  match xs with
  | [] => W
  | x :: rest => listSetRange (W.set i x) (i + 1) rest

/-! ### Generic lemmas about the loop shapes used above -/

theorem foldl_length_invariant {α β : Type} (l : List β) (F : List α → β → List α)
    (W : List α) (hF : ∀ W' x, (F W' x).length = W'.length) :
    (l.foldl F W).length = W.length := by
  induction l generalizing W with
  | nil => rfl
  | cons x xs ih => rw [List.foldl_cons, ih, hF]

theorem getD_set_self {α : Type} (l : List α) (i : Nat) (v d : α) (h : i < l.length) :
    (l.set i v).getD i d = v := by
  simp [List.getD_eq_getElem?_getD, List.getElem?_set_self, h]

theorem getD_set_ne {α : Type} (l : List α) (i j : Nat) (v d : α) (hne : i ≠ j) :
    (l.set i v).getD j d = l.getD j d := by
  simp [List.getD_eq_getElem?_getD, List.getElem?_set_ne hne]

theorem foldl_set_range_length {α : Type} (g : Nat → α) (n : Nat) (W : List α) :
    ((List.range n).foldl (fun o i => o.set i (g i)) W).length = W.length :=
  foldl_length_invariant _ _ _ (fun W' x => by simp)

theorem foldl_set_range_getD {α : Type} (g : Nat → α) (n : Nat) (W : List α)
    (j : Nat) (d : α) (hj : j < n) (hjW : j < W.length) :
    ((List.range n).foldl (fun o i => o.set i (g i)) W).getD j d = g j := by
  induction n with
  | zero => omega
  | succ k ih =>
    rw [List.range_succ, List.foldl_append, List.foldl_cons, List.foldl_nil]
    by_cases hjk : j = k
    · subst hjk
      have hlen : j < ((List.range j).foldl (fun o i => o.set i (g i)) W).length := by
        rw [foldl_set_range_length]; exact hjW
      exact getD_set_self _ _ _ _ hlen
    · have hj' : j < k := by omega
      rw [getD_set_ne _ _ _ _ _ (fun h => hjk h.symm)]
      exact ih hj'

theorem foldl_flip_length (p : Nat → Nat) (n : Nat) (W : List Bool) :
    ((List.range n).foldl (fun W' i => W'.set (p i) (!(W'.getD (p i) false))) W).length
      = W.length :=
  foldl_length_invariant _ _ _ (fun W' x => by simp)

theorem foldl_flip_getD_untouched (p : Nat → Nat) (n : Nat) (W : List Bool) (j : Nat)
    (hne : ∀ i, i < n → p i ≠ j) :
    ((List.range n).foldl (fun W' i => W'.set (p i) (!(W'.getD (p i) false))) W).getD j false
      = W.getD j false := by
  induction n with
  | zero => rfl
  | succ k ih =>
    rw [List.range_succ, List.foldl_append, List.foldl_cons, List.foldl_nil]
    rw [getD_set_ne _ _ _ _ _ (hne k (by omega))]
    exact ih (fun i hi => hne i (by omega))

theorem foldl_flip_getD (p : Nat → Nat) (n : Nat) (W : List Bool) (c : Nat) (hc : c < n)
    (hinj : ∀ a b, a < n → b < n → p a = p b → a = b) (hlt : p c < W.length) :
    ((List.range n).foldl (fun W' i => W'.set (p i) (!(W'.getD (p i) false))) W).getD (p c) false
      = !(W.getD (p c) false) := by
  induction n with
  | zero => omega
  | succ k ih =>
    rw [List.range_succ, List.foldl_append, List.foldl_cons, List.foldl_nil]
    by_cases hck : c = k
    · subst hck
      have h1 : ((List.range c).foldl
          (fun W' i => W'.set (p i) (!(W'.getD (p i) false))) W).getD (p c) false
          = W.getD (p c) false :=
        foldl_flip_getD_untouched p c W (p c)
          (fun i hi hip => absurd (hinj i c (by omega) (by omega) hip) (by omega))
      have hlen : p c < ((List.range c).foldl
          (fun W' i => W'.set (p i) (!(W'.getD (p i) false))) W).length := by
        rw [foldl_flip_length]; exact hlt
      rw [getD_set_self _ _ _ _ hlen, h1]
    · have hc' : c < k := by omega
      have hpne : p k ≠ p c := fun h => hck (hinj c k (by omega) (by omega) h.symm)
      rw [getD_set_ne _ _ _ _ _ hpne]
      exact ih hc' (fun a b ha hb => hinj a b (by omega) (by omega))

theorem listSetRange_length {α : Type} (xs : List α) (W : List α) (i : Nat) :
    (listSetRange W i xs).length = W.length := by
  induction xs generalizing W i with
  | nil => rfl
  | cons x rest ih => rw [listSetRange, ih, List.length_set]

theorem listSetRange_eq_append {α : Type} (xs : List α) (W : List α) (i : Nat)
    (h : W.length = i + xs.length) :
    listSetRange W i xs = W.take i ++ xs := by
  induction xs generalizing W i with
  | nil =>
    simp only [List.length_nil, Nat.add_zero] at h
    rw [listSetRange, List.take_of_length_le (by omega)]
    simp
  | cons x rest ih =>
    simp only [List.length_cons] at h
    rw [listSetRange, ih _ _ (by simp only [List.length_set]; omega)]
    have hi : i < W.length := by omega
    have hset : (W.set i x).take (i + 1) = W.take i ++ [x] := by
      rw [List.set_eq_take_cons_drop x hi, List.take_append_eq_append_take]
      have h1 : (W.take i).length = i := by simp [List.length_take]; omega
      rw [List.take_of_length_le (by omega : (W.take i).length ≤ i + 1), h1]
      simp
    rw [hset, List.append_assoc]
    rfl

theorem listSetRange_full {α : Type} (xs : List α) (W : List α)
    (h : W.length = xs.length) :
    listSetRange W 0 xs = xs := by
  rw [listSetRange_eq_append xs W 0 (by omega)]
  simp

theorem loadBits_ok (bits : List Bool) (rest : List Nat) (W : List Bool) (i : Nat) (w : Bool) :
    ∃ w', loadBits ⟨bits.map (fun b => if b then 1 else 0) ++ rest, false⟩ w W i bits.length
      = (⟨rest, false⟩, w', listSetRange W i bits) := by
  induction bits generalizing W i w with
  | nil => exact ⟨w, rfl⟩
  | cons b bs ih =>
    cases b <;> simpa [loadBits, readBool, listSetRange] using ih ..

theorem loadThresholds_ok (ts rest : List Nat) (T : List Nat) (i : Nat) :
    loadThresholds ⟨ts ++ rest, false⟩ T i ts.length = (⟨rest, false⟩, listSetRange T i ts) := by
  induction ts generalizing T i with
  | nil => rfl
  | cons t ts' ih => simp [loadThresholds, readSizeT, listSetRange, ih]

theorem binarynet_load_exact (L : BinarynetLayer) (bits : List Bool) (thrs extra : List Nat)
    (hbits : bits.length = L.in_size * L.out_size)
    (hW : L.Wbin.length = bits.length)
    (hthrs : thrs.length = L.Threshold.length) :
    binarynet_load L ⟨bits.map (fun b => if b then 1 else 0) ++ (thrs ++ extra), false⟩
      = (⟨extra, false⟩, { L with Wbin := bits, Threshold := thrs }) := by
  simp only [binarynet_load]
  rw [← hbits]
  obtain ⟨w', hw⟩ := loadBits_ok bits (thrs ++ extra) L.Wbin 0 false
  rw [hw]
  simp only
  rw [← hthrs, loadThresholds_ok]
  simp only
  rw [listSetRange_full bits L.Wbin hW, listSetRange_full thrs L.Threshold hthrs.symm]

/-- Claim C5: for every binarynet layer state, `save` to a stream followed by
`load` from that stream into a fresh instance with the same `in_size` and
`out_size` reproduces exactly the same weight bits and threshold integers. -/
theorem binarynet_save_load_roundtrip (L : BinarynetLayer)
    (hW : L.Wbin.length = L.in_size * L.out_size)
    (hT : L.Threshold.length = L.out_size) :
    (binarynet_load (binarynet_layer L.in_size L.out_size)
        ⟨binarynet_save L, false⟩).2.Wbin = L.Wbin ∧
    (binarynet_load (binarynet_layer L.in_size L.out_size)
        ⟨binarynet_save L, false⟩).2.Threshold = L.Threshold := by
  have h := binarynet_load_exact (binarynet_layer L.in_size L.out_size) L.Wbin L.Threshold []
    hW (by simp [binarynet_layer, hW]) (by simp [binarynet_layer, hT])
  rw [List.append_nil] at h
  constructor <;> (simp only [binarynet_save]; rw [h])

/-- Witness for C5 at a concrete layer state. -/
theorem binarynet_save_load_roundtrip_witness :
    ((⟨2, 1, [true, false], [7]⟩ : BinarynetLayer).Wbin.length = 2 * 1) ∧
    ((⟨2, 1, [true, false], [7]⟩ : BinarynetLayer).Threshold.length = 1) ∧
    ((binarynet_load (binarynet_layer 2 1)
        ⟨binarynet_save ⟨2, 1, [true, false], [7]⟩, false⟩).2.Wbin = [true, false] ∧
      (binarynet_load (binarynet_layer 2 1)
        ⟨binarynet_save ⟨2, 1, [true, false], [7]⟩, false⟩).2.Threshold = [7]) :=
  ⟨by decide, by decide,
    binarynet_save_load_roundtrip ⟨2, 1, [true, false], [7]⟩ (by decide) (by decide)⟩

/-- Claim C6 counterexample: `load` from a stream that supplies none of the
expected tokens (the empty stream) fails, but only after having overwritten
the existing weight state: the claim says it rejects before mutating. -/
theorem binarynet_load_short_stream_mutates :
    (binarynet_load ⟨1, 1, [true], [5]⟩ ⟨[], false⟩).1.failed = true ∧
    (binarynet_load ⟨1, 1, [true], [5]⟩ ⟨[], false⟩).2
      ≠ (⟨1, 1, [true], [5]⟩ : BinarynetLayer) := by
  decide

/-- Claim C6 (amended): `load` consumes exactly `in_size * out_size`
weight-bit tokens followed by exactly `out_size` threshold tokens in that
order whenever the stream supplies at least that many, leaving any further
tokens unread (extra tokens are not rejected); on a stream with fewer
tokens it does not fail before mutating the existing state. -/
theorem binarynet_load_exact_consumption (L : BinarynetLayer) (bits : List Bool)
    (thrs extra : List Nat)
    (hbits : bits.length = L.in_size * L.out_size)
    (hW : L.Wbin.length = L.in_size * L.out_size)
    (hthrs : thrs.length = L.out_size)
    (hT : L.Threshold.length = L.out_size) :
    binarynet_load L ⟨bits.map (fun b => if b then 1 else 0) ++ (thrs ++ extra), false⟩
      = (⟨extra, false⟩, { L with Wbin := bits, Threshold := thrs }) :=
  binarynet_load_exact L bits thrs extra hbits (by omega) (by omega)

/-- Witness for C6's amended statement at a concrete layer and stream. -/
theorem binarynet_load_exact_consumption_witness :
    (([true, false] : List Bool).length = 1 * 2) ∧
    ((⟨1, 2, [false, true], [3, 4]⟩ : BinarynetLayer).Wbin.length = 1 * 2) ∧
    (([9, 8] : List Nat).length = 2) ∧
    ((⟨1, 2, [false, true], [3, 4]⟩ : BinarynetLayer).Threshold.length = 2) ∧
    binarynet_load ⟨1, 2, [false, true], [3, 4]⟩
        ⟨[true, false].map (fun b => if b then 1 else 0) ++ ([9, 8] ++ [42]), false⟩
      = (⟨[42], false⟩, (⟨1, 2, [true, false], [9, 8]⟩ : BinarynetLayer)) :=
  ⟨by decide, by decide, by decide, by decide,
    binarynet_load_exact_consumption ⟨1, 2, [false, true], [3, 4]⟩ [true, false] [9, 8] [42]
      (by decide) (by decide) (by decide) (by decide)⟩

theorem foldl_add_shift {β : Type} (f : β → Int) (l : List β) (a : Int) :
    l.foldl (fun acc p => acc + f p) a = a + l.foldl (fun acc p => acc + f p) 0 := by
  induction l generalizing a with
  | nil => simp
  | cons x xs ih =>
    rw [List.foldl_cons, List.foldl_cons, ih (a + f x), ih (0 + f x)]
    ring

theorem acc_signed_cons (p : Bool × Bool) (ps : List (Bool × Bool)) :
    acc_signed (p :: ps) = (if p.1 == p.2 then 1 else -1) + acc_signed ps := by
  simp only [acc_signed, List.foldl_cons]
  rw [foldl_add_shift (fun q => if q.1 == q.2 then (1 : Int) else -1) ps]
  ring

theorem acc_popcount_cons (p : Bool × Bool) (ps : List (Bool × Bool)) :
    acc_popcount (p :: ps) = (if p.1 == p.2 then 1 else 0) + acc_popcount ps := by
  simp only [acc_popcount, List.foldl_cons]
  rw [foldl_add_shift (fun q => if q.1 == q.2 then (1 : Int) else 0) ps]
  ring

/-- Claim C3: over any sequence of weight-bit/input-bit pairs of which `m`
are equal, the signed-mode accumulator equals `2*m - n`, and equals
`2 * acc_popcount - n` for the popcount-mode accumulator over the same
pairs. -/
theorem acc_mode_equivalence (pairs : List (Bool × Bool)) :
    acc_signed pairs
      = 2 * ((pairs.filter (fun p => p.1 == p.2)).length : Int) - (pairs.length : Int) ∧
    acc_signed pairs = 2 * acc_popcount pairs - (pairs.length : Int) := by
  induction pairs with
  | nil => exact ⟨by simp [acc_signed], by simp [acc_signed, acc_popcount]⟩
  | cons p ps ih =>
    obtain ⟨ih1, ih2⟩ := ih
    constructor
    · rw [acc_signed_cons, ih1, List.filter_cons]
      by_cases hp : (p.1 == p.2) = true
      · simp only [hp, if_true, if_pos, List.length_cons]
        push_cast
        ring
      · simp only [hp, if_false, Bool.false_eq_true, List.length_cons]
        push_cast
        ring
    · rw [acc_signed_cons, ih2, acc_popcount_cons]
      by_cases hp : (p.1 == p.2) = true
      · simp only [hp, if_true, List.length_cons]
        push_cast
        ring
      · simp only [hp, if_false, Bool.false_eq_true, List.length_cons]
        push_cast
        ring

theorem float2bipolar_length (vin : List ℚ) (vout : List Bool) :
    (float2bipolar vin vout).length = vout.length :=
  foldl_set_range_length _ _ _

theorem float2bipolar_getD (vin : List ℚ) (vout : List Bool) (j : Nat)
    (hj : j < vout.length) (hlen : vout.length ≤ vin.length) :
    (float2bipolar vin vout).getD j false = (if vin.getD j 0 ≥ 0 then true else false) :=
  foldl_set_range_getD _ _ _ _ _ (by omega) hj

theorem float2bipolar_sign_iff (W : List ℚ) (V : List Bool) (j : Nat)
    (hj : j < V.length) (hlen : V.length ≤ W.length) :
    ((float2bipolar W V).getD j false = true ↔ W.getD j 0 ≥ 0) := by
  rw [float2bipolar_getD W V j hj hlen]
  by_cases h : W.getD j 0 ≥ 0 <;> simp [h]

/-- Claim C8: for every layer variant, `post_update()` re-derives the
binarized weight store by sign-encoding the externally owned float tensor in
the same linear order: if the float tensor has at least as many elements as
the store, then after the call bit `j` is `true` iff float weight `j ≥ 0`
for every `j` below the store length, and the store length is unchanged. -/
theorem post_update_sign_encoding (W : List ℚ)
    (Lf : BinarizedFcLayer) (Lb : BinarynetLayer) (Lc : BnnConvLayer)
    (hf : Lf.Wbin.length ≤ W.length) (hb : Lb.Wbin.length ≤ W.length)
    (hc : Lc.Wbin.length ≤ W.length) :
    ((fc_post_update W Lf).Wbin.length = Lf.Wbin.length ∧
      ∀ j < Lf.Wbin.length,
        ((fc_post_update W Lf).Wbin.getD j false = true ↔ W.getD j 0 ≥ 0)) ∧
    ((binarynet_post_update W Lb).Wbin.length = Lb.Wbin.length ∧
      ∀ j < Lb.Wbin.length,
        ((binarynet_post_update W Lb).Wbin.getD j false = true ↔ W.getD j 0 ≥ 0)) ∧
    ((bnn_conv_post_update W Lc).Wbin.length = Lc.Wbin.length ∧
      ∀ j < Lc.Wbin.length,
        ((bnn_conv_post_update W Lc).Wbin.getD j false = true ↔ W.getD j 0 ≥ 0)) :=
  ⟨⟨float2bipolar_length W Lf.Wbin, fun j hj => float2bipolar_sign_iff W Lf.Wbin j hj hf⟩,
   ⟨float2bipolar_length W Lb.Wbin, fun j hj => float2bipolar_sign_iff W Lb.Wbin j hj hb⟩,
   ⟨float2bipolar_length W Lc.Wbin, fun j hj => float2bipolar_sign_iff W Lc.Wbin j hj hc⟩⟩

/-- Witness for C8 at a concrete float tensor and concrete layer states. -/
theorem post_update_sign_encoding_witness :
    ((⟨2, 1, [true, true]⟩ : BinarizedFcLayer).Wbin.length ≤ ([1, -3] : List ℚ).length) ∧
    ((⟨1, 1, [false], [0]⟩ : BinarynetLayer).Wbin.length ≤ ([1, -3] : List ℚ).length) ∧
    ((⟨1, 1, 1, 1, 1, false, [true], 1, 1⟩ : BnnConvLayer).Wbin.length
        ≤ ([1, -3] : List ℚ).length) ∧
    (((fc_post_update [1, -3] ⟨2, 1, [true, true]⟩).Wbin.length = 2 ∧
        ∀ j < 2, ((fc_post_update [1, -3] (⟨2, 1, [true, true]⟩ : BinarizedFcLayer)).Wbin.getD j false = true
          ↔ ([1, -3] : List ℚ).getD j 0 ≥ 0)) ∧
      ((binarynet_post_update [1, -3] ⟨1, 1, [false], [0]⟩).Wbin.length = 1 ∧
        ∀ j < 1, ((binarynet_post_update [1, -3] (⟨1, 1, [false], [0]⟩ : BinarynetLayer)).Wbin.getD j false = true
          ↔ ([1, -3] : List ℚ).getD j 0 ≥ 0)) ∧
      ((bnn_conv_post_update [1, -3] ⟨1, 1, 1, 1, 1, false, [true], 1, 1⟩).Wbin.length = 1 ∧
        ∀ j < 1, ((bnn_conv_post_update [1, -3] (⟨1, 1, 1, 1, 1, false, [true], 1, 1⟩ : BnnConvLayer)).Wbin.getD j false = true
          ↔ ([1, -3] : List ℚ).getD j 0 ≥ 0))) :=
  ⟨by decide, by decide, by decide,
    post_update_sign_encoding [1, -3] ⟨2, 1, [true, true]⟩ ⟨1, 1, [false], [0]⟩
      ⟨1, 1, 1, 1, 1, false, [true], 1, 1⟩ (by decide) (by decide) (by decide)⟩

/-- Claim C7: `loadFromBinaryFile` sets each weight bit, in the same linear
order as the weight tensor, to `true` iff the corresponding stored 8-byte
unsigned integer equals exactly `1` (any other value, `0`, `2` or otherwise,
yields `false`), and leaves the store length unchanged. -/
theorem loadFromBinaryFile_decode (words : List Nat) (W : List Bool) (line : Nat)
    (hline : line < W.length) :
    ((loadFromBinaryFile words W).getD line false = true ↔ words.getD line 0 = 1) ∧
    (loadFromBinaryFile words W).length = W.length := by
  constructor
  · have h := foldl_set_range_getD (fun l => (words.getD l 0 == 1)) W.length W line false
      hline hline
    rw [show (loadFromBinaryFile words W).getD line false
        = ((List.range W.length).foldl (fun W' l => W'.set l (words.getD l 0 == 1)) W).getD line false
      from rfl, h]
    simp
  · exact foldl_set_range_length _ _ _

/-- Witness for C7: a four-word file holding 1, 0, 2, 99. -/
theorem loadFromBinaryFile_decode_witness :
    (0 < (List.replicate 4 false).length) ∧
    (((loadFromBinaryFile [1, 0, 2, 99] (List.replicate 4 false)).getD 0 false = true
        ↔ ([1, 0, 2, 99] : List Nat).getD 0 0 = 1) ∧
      (loadFromBinaryFile [1, 0, 2, 99] (List.replicate 4 false)).length
        = (List.replicate 4 false).length) :=
  ⟨by decide, loadFromBinaryFile_decode [1, 0, 2, 99] (List.replicate 4 false) 0 (by decide)⟩

/-- Claim C9: for every layer variant and every layer state, both
backward-propagation operations fail immediately with the thrown
not-implemented error, leaving the layer state unchanged. -/
theorem back_propagation_unsupported :
    (∀ (L : BinarizedFcLayer) (d : List ℚ),
      fc_back_propagation L d = (L, Except.error "Not yet implemented") ∧
      fc_back_propagation_2nd L d = (L, Except.error "Not yet implemented")) ∧
    (∀ (L : BinarynetLayer) (d : List ℚ),
      binarynet_back_propagation L d = (L, Except.error "Not yet implemented") ∧
      binarynet_back_propagation_2nd L d = (L, Except.error "Not yet implemented")) ∧
    (∀ (L : BnnConvLayer) (d : List ℚ),
      bnn_conv_back_propagation L d = (L, Except.error "Not implemented") ∧
      bnn_conv_back_propagation_2nd L d = (L, Except.error "Not implemented")) :=
  ⟨fun L d => ⟨rfl, rfl⟩, fun L d => ⟨rfl, rfl⟩, fun L d => ⟨rfl, rfl⟩⟩

/-- Claim C10 counterexample: the bnn_conv layer with a 3×3 input, 3×3
kernel and one input and output channel has `connection_size() = 9`, which
equals its weight store length, contradicting the claim that
`connection_size()` equals the store length only for the plain binarized FC
layer (and that for bnn_conv it differs from the store size). -/
theorem conv_connection_size_coincides :
    bnn_conv_connection_size (bnn_conv_layer 3 3 3 1 1 false)
      = (bnn_conv_layer 3 3 3 1 1 false).Wbin.length ∧
    bnn_conv_connection_size (bnn_conv_layer 3 3 3 1 1 false) = 9 := by
  decide

/-- Claim C10 (amended): `connection_size()` returns `in*out` for the plain
binarized FC layer (always its store length); `in*out + 2*out` for the
binarynet layer (store length plus `2*out`, hence different whenever
`out_size > 0`); and `out_height*out_width*fan_in_size()` for the bnn_conv
layer, whose store length is `out_channels*in_channels*k*k` (the two may
coincide for particular geometries). -/
theorem connection_size_formulas (ind outd iw ih k icn ocn : Nat) (pop : Bool)
    (hout : 0 < outd) :
    binarized_fc_connection_size (binarized_fc_layer ind outd)
      = (binarized_fc_layer ind outd).Wbin.length ∧
    binarynet_connection_size (binarynet_layer ind outd) = ind * outd + 2 * outd ∧
    (binarynet_layer ind outd).Wbin.length = ind * outd ∧
    binarynet_connection_size (binarynet_layer ind outd)
      ≠ (binarynet_layer ind outd).Wbin.length ∧
    bnn_conv_connection_size (bnn_conv_layer iw ih k icn ocn pop)
      = (ih - k + 1) * (iw - k + 1) * (icn * k * k) ∧
    (bnn_conv_layer iw ih k icn ocn pop).Wbin.length = ocn * icn * k * k := by
  refine ⟨by simp [binarized_fc_connection_size, binarized_fc_layer], rfl,
    by simp [binarynet_layer], ?_, rfl, by simp [bnn_conv_layer]⟩
  simp only [binarynet_connection_size, binarynet_layer, List.length_replicate]
  omega

/-- Witness for C10's amended statement at concrete sizes. -/
theorem connection_size_formulas_witness :
    (0 < 2) ∧
    (binarized_fc_connection_size (binarized_fc_layer 3 2)
        = (binarized_fc_layer 3 2).Wbin.length ∧
      binarynet_connection_size (binarynet_layer 3 2) = 3 * 2 + 2 * 2 ∧
      (binarynet_layer 3 2).Wbin.length = 3 * 2 ∧
      binarynet_connection_size (binarynet_layer 3 2)
        ≠ (binarynet_layer 3 2).Wbin.length ∧
      bnn_conv_connection_size (bnn_conv_layer 5 5 3 1 2 true)
        = (5 - 3 + 1) * (5 - 3 + 1) * (1 * 3 * 3) ∧
      (bnn_conv_layer 5 5 3 1 2 true).Wbin.length = 2 * 1 * 3 * 3) :=
  ⟨by decide, connection_size_formulas 3 2 5 5 3 1 2 true (by decide)⟩

theorem index_lt_mul (c ind outd idx : Nat) (hc : c < ind) (hidx : idx < outd) :
    c * outd + idx < ind * outd :=
  calc c * outd + idx < c * outd + outd := by omega
  _ = (c + 1) * outd := by ring
  _ ≤ ind * outd := Nat.mul_le_mul_right _ (by omega)

theorem cppToInt_flip_case : cppToInt ((10 : ℚ) - 4 / ((-2) * 1)) = 12 := by
  have hq : (10 : ℚ) - 4 / ((-2) * 1) = 12 := by norm_num
  rw [hq]
  simp only [cppToInt, Rat.num_ofNat, Rat.den_ofNat]
  decide

/-- Claim C1 counterexample: with `mean=10, gamma=-2, invstd=1, beta=4` and
`fan_in_size()=4`, the stored threshold is `2^63 - 4` (the `size_t` result
of `(-12 + 4) / 2`, since `raw = 10 - 4/(-2) = 12` is negated to `-12` and
the store is unsigned), not `-2` in any reading: `2^63 - 4` differs from
`-2` as an integer and from the two's-complement pattern `2^64 - 2`. -/
theorem set_threshold_flip_value_cex :
    (set_threshold_from_batchnorm ⟨4, 1, [false, false, false, false], [0]⟩ 0 10 (-2) 1 4).Threshold
      = [2 ^ 63 - 4] ∧
    ((2 ^ 63 - 4 : Nat) : Int) ≠ -2 ∧ (2 ^ 63 - 4 : Nat) ≠ 2 ^ 64 - 2 := by
  refine ⟨?_, by decide, by decide⟩
  simp only [set_threshold_from_batchnorm]
  rw [if_pos (by norm_num : ((-2 : ℚ)) * 1 < 0), cppToInt_flip_case]
  decide

/-- Claim C1 (amended): after `set_threshold_from_batchnorm(index, mean=10,
gamma=-2, invstd=1, beta=4)` on a binarynet layer with `fan_in_size() = 4`,
the stored threshold for output unit `index` equals `2^63 - 4` (the unsigned
`size_t` value of `(-12 + 4) / 2`, where `raw = 12` is negated because
`gamma*invstd < 0`), and every weight bit at position `c*out_size + index`
for `c` in the fan-in range equals the logical negation of its value before
the call. -/
theorem set_threshold_flip_case (L : BinarynetLayer) (index : Nat)
    (hin : L.in_size = 4) (hidx : index < L.out_size)
    (hW : L.Wbin.length = L.in_size * L.out_size) :
    ((set_threshold_from_batchnorm L index 10 (-2) 1 4).Threshold
        = L.Threshold.set index (2 ^ 63 - 4)) ∧
    (∀ c < L.in_size,
      (set_threshold_from_batchnorm L index 10 (-2) 1 4).Wbin.getD (c * L.out_size + index) false
        = !(L.Wbin.getD (c * L.out_size + index) false)) := by
  have hout : 0 < L.out_size := by omega
  constructor
  · simp only [set_threshold_from_batchnorm]
    rw [if_pos (by norm_num : ((-2 : ℚ)) * 1 < 0), cppToInt_flip_case]
    simp only [hin]
    congr 1
  · intro c hc
    simp only [set_threshold_from_batchnorm]
    rw [if_pos (by norm_num : ((-2 : ℚ)) * 1 < 0)]
    simp only []
    exact foldl_flip_getD (fun c => c * L.out_size + index) L.in_size L.Wbin c hc
      (fun a b ha hb hab => by
        simp only [] at hab
        exact Nat.eq_of_mul_eq_mul_right hout (by omega))
      (by rw [hW]; exact index_lt_mul c L.in_size L.out_size index hc hidx)

/-- Witness for C1's amended statement at a concrete layer state. -/
theorem set_threshold_flip_case_witness :
    ((⟨4, 1, [true, false, true, false], [9]⟩ : BinarynetLayer).in_size = 4) ∧
    (0 < 1) ∧
    ((⟨4, 1, [true, false, true, false], [9]⟩ : BinarynetLayer).Wbin.length = 4 * 1) ∧
    (((set_threshold_from_batchnorm ⟨4, 1, [true, false, true, false], [9]⟩ 0 10 (-2) 1 4).Threshold
        = [9].set 0 (2 ^ 63 - 4)) ∧
      (∀ c < 4,
        (set_threshold_from_batchnorm ⟨4, 1, [true, false, true, false], [9]⟩ 0 10 (-2) 1 4).Wbin.getD (c * 1 + 0) false
          = !(([true, false, true, false] : List Bool).getD (c * 1 + 0) false))) :=
  ⟨rfl, by decide, by decide,
    set_threshold_flip_case ⟨4, 1, [true, false, true, false], [9]⟩ 0 rfl (by decide) (by decide)⟩

/-- Claim C2 counterexample: a binarized FC layer whose activation is the
identity (`h_.f(a, i) = a[i]`, a legal `Activation` instantiation) with
`in_size = 2`, weights `[true, true]` and input `[1, -1]` outputs `[0]`,
and `0` is not in `{-1, +1}`. -/
theorem binarized_fc_forward_zero_output :
    ¬ (∀ x ∈ binarized_fc_forward ⟨2, 1, [true, true]⟩ (fun a i => a.getD i 0) [1, -1],
        x = 1 ∨ x = -1) := by
  have heval : binarized_fc_forward ⟨2, 1, [true, true]⟩ (fun a i => a.getD i 0) [1, -1]
      = [0] := by
    norm_num [binarized_fc_forward, float2bipolar, List.range_succ]
  rw [heval]
  norm_num

/-- Claim C2 (amended): every element of a binarynet layer's
`forward_propagation` output lies in `{-1, +1}` for arbitrary finite inputs,
weights, thresholds and offload hook; every element of a binarized FC
layer's output lies in `{-1, +1}` provided the activation function's values
do (the raw output is the activation applied to the accumulator). -/
theorem forward_output_range
    (Lb : BinarynetLayer) (off : Option (List Bool → List Nat → List Bool → List Bool))
    (vb : List ℚ) (Lf : BinarizedFcLayer) (h : List ℚ → Nat → ℚ) (vf : List ℚ)
    (hh : ∀ a i, h a i = 1 ∨ h a i = -1) :
    (∀ x ∈ binarynet_forward Lb off vb, x = 1 ∨ x = -1) ∧
    (∀ x ∈ binarized_fc_forward Lf h vf, x = 1 ∨ x = -1) := by
  constructor
  · intro x hx
    cases off with
    | some f =>
      simp only [binarynet_forward, List.mem_map] at hx
      obtain ⟨i, -, hi⟩ := hx
      by_cases hb : (f (float2bipolar vb (List.replicate Lb.in_size false)) Lb.Threshold
          Lb.Wbin).getD i false = true
      · left; rw [← hi, if_pos hb]
      · right; rw [← hi, if_neg hb]
    | none =>
      simp only [binarynet_forward, List.mem_map] at hx
      obtain ⟨i, -, hi⟩ := hx
      rw [← hi]
      by_cases hb : ((List.range Lb.in_size).foldl
          (fun acc c =>
            acc + (if (Lb.Wbin.getD (c * Lb.out_size + i) false)
                == ((float2bipolar vb (List.replicate Lb.in_size false)).getD c false)
              then 1 else 0)) 0 : ℚ) ≥ (Lb.Threshold.getD i 0 : ℚ)
      · left; exact if_pos hb
      · right; exact if_neg hb
  · intro x hx
    simp only [binarized_fc_forward, List.mem_map] at hx
    obtain ⟨i, -, hi⟩ := hx
    rw [← hi]
    exact hh _ i

/-- Witness for C2's amended statement at concrete layers, input and a
constant-`+1` activation. -/
theorem forward_output_range_witness :
    (∀ (a : List ℚ) (i : Nat), (fun (_ : List ℚ) (_ : Nat) => (1 : ℚ)) a i = 1 ∨
        (fun (_ : List ℚ) (_ : Nat) => (1 : ℚ)) a i = -1) ∧
    ((∀ x ∈ binarynet_forward ⟨1, 1, [false], [0]⟩ none [1], x = 1 ∨ x = -1) ∧
      (∀ x ∈ binarized_fc_forward ⟨1, 1, [false]⟩ (fun _ _ => (1 : ℚ)) [1], x = 1 ∨ x = -1)) :=
  ⟨fun a i => Or.inl rfl,
    forward_output_range ⟨1, 1, [false], [0]⟩ none [1] ⟨1, 1, [false]⟩
      (fun _ _ => (1 : ℚ)) [1] (fun a i => Or.inl rfl)⟩

theorem foldl_range_add (f : Nat → Int) (n : Nat) (a : Int) :
    (List.range n).foldl (fun acc i => acc + f i) a = a + ∑ i ∈ Finset.range n, f i := by
  induction n generalizing a with
  | zero => simp
  | succ k ih =>
    rw [List.range_succ, List.foldl_append, ih, Finset.sum_range_succ]
    simp [add_assoc]

theorem conv_acc_eq_sum (L : BnnConvLayer) (in_bin : List Bool) (oc oy ox : Nat) :
    conv_acc L in_bin oc oy ox
      = ∑ ic ∈ Finset.range L.in_channels, ∑ ky ∈ Finset.range L.window_size,
          ∑ kx ∈ Finset.range L.window_size,
            conv_match L.use_popcount
              (L.Wbin.getD (oc * (L.window_size * L.window_size * L.in_channels)
                  + L.window_size * L.window_size * ic + ky * L.window_size + kx) false)
              (in_bin.getD (ic * (L.in_width * L.in_height) + oy * L.in_width + ox
                  + ky * L.in_width + kx) false) := by
  simp only [conv_acc, foldl_range_add]
  simp

theorem foldl_preserve {β : Type} (l : List β) (F : (Nat → ℚ) → β → (Nat → ℚ)) (n : Nat)
    (h : ∀ g x, x ∈ l → F g x n = g n) (g0 : Nat → ℚ) :
    (l.foldl F g0) n = g0 n := by
  induction l generalizing g0 with
  | nil => rfl
  | cons x xs ih =>
    rw [List.foldl_cons, ih (fun g y hy => h g y (List.mem_cons_of_mem _ hy))]
    exact h g0 x (List.mem_cons_self _ _)

theorem foldl_range_write (cnt j : Nat) (hj : j < cnt)
    (F : (Nat → ℚ) → Nat → (Nat → ℚ)) (n : Nat) (v : ℚ)
    (hwrite : ∀ g, F g j n = v)
    (hafter : ∀ g i, j < i → i < cnt → F g i n = g n) (g0 : Nat → ℚ) :
    ((List.range cnt).foldl F g0) n = v := by
  induction cnt with
  | zero => omega
  | succ k ih =>
    rw [List.range_succ, List.foldl_append, List.foldl_cons, List.foldl_nil]
    by_cases hjk : j = k
    · subst hjk
      exact hwrite _
    · rw [hafter _ k (by omega) (by omega)]
      exact ih (by omega) (fun g i h1 h2 => hafter g i h1 (by omega))

theorem conv_row_key_lt (OW oy ox i x : Nat) (hox : ox < OW) (hyy : oy < i) :
    oy * OW + ox < i * OW + x :=
  calc oy * OW + ox < oy * OW + OW := by omega
  _ = (oy + 1) * OW := by ring
  _ ≤ i * OW := Nat.mul_le_mul_right _ (by omega)
  _ ≤ i * OW + x := by omega

theorem conv_chan_key_lt (OH OW oc oy ox i r : Nat) (hoy : oy < OH) (hox : ox < OW)
    (hcc : oc < i) : oc * OH * OW + oy * OW + ox < i * OH * OW + r := by
  have h1 : oy * OW + ox < OH * OW :=
    calc oy * OW + ox < oy * OW + OW := by omega
    _ = (oy + 1) * OW := by ring
    _ ≤ OH * OW := Nat.mul_le_mul_right _ (by omega)
  have h2 : (oc + 1) * OH * OW ≤ i * OH * OW :=
    Nat.mul_le_mul_right _ (Nat.mul_le_mul_right _ (by omega))
  calc oc * OH * OW + oy * OW + ox < oc * OH * OW + OH * OW := by omega
  _ = (oc + 1) * OH * OW := by ring
  _ ≤ i * OH * OW := h2
  _ ≤ i * OH * OW + r := by omega

theorem bnn_conv_forward_apply (L : BnnConvLayer) (vin : List ℚ) (out0 : Nat → ℚ)
    (oc oy ox : Nat) (hoc : oc < L.out_channels) (hoy : oy < L.out_height)
    (hox : ox < L.out_width) :
    bnn_conv_forward L vin out0 (oc * L.out_height * L.out_width + oy * L.out_width + ox)
      = ((conv_acc L (float2bipolar vin (List.replicate vin.length false)) oc oy ox : Int) : ℚ) := by
  simp only [bnn_conv_forward]
  apply foldl_range_write L.out_channels oc hoc
  · intro g
    apply foldl_range_write L.out_height oy hoy
    · intro g2
      apply foldl_range_write L.out_width ox hox
      · intro g3
        exact Function.update_same _ _ _
      · intro g3 i h1 h2
        apply Function.update_noteq
        omega
    · intro g2 i h1 h2
      apply foldl_preserve
      intro g3 x hx
      apply Function.update_noteq
      have hxlt : x < L.out_width := List.mem_range.mp hx
      have hkey := conv_row_key_lt L.out_width oy ox i x hox h1
      omega
  · intro g i h1 h2
    apply foldl_preserve
    intro g2 y hy
    apply foldl_preserve
    intro g3 x hx
    apply Function.update_noteq
    have hxlt : x < L.out_width := List.mem_range.mp hx
    have hylt : y < L.out_height := List.mem_range.mp hy
    have hkey := conv_chan_key_lt L.out_height L.out_width oc oy ox i (y * L.out_width + x)
      hoy hox h1
    omega

/-- Claim C4: for every bnn_conv layer (valid padding, stride 1, kernel size
`k` with `k ≤ in_width`, `k ≤ in_height`), `out_width = in_width - k + 1`
and `out_height = in_height - k + 1`, and `forward_propagation` writes at
output index `oc*out_height*out_width + oy*out_width + ox` the raw
accumulator (no threshold comparison): the sum over all `(ic, ky, kx)` of
the layer's match rule applied to weight bit
`oc*(k*k*in_channels) + ic*(k*k) + ky*k + kx` and binarized-input bit
`ic*(in_width*in_height) + oy*in_width + ox + ky*in_width + kx`. -/
theorem bnn_conv_forward_geometry_index
    (iw ihh k icn ocn : Nat) (pop : Bool) (W : List Bool) (vin : List ℚ) (out0 : Nat → ℚ)
    (hkw : k ≤ iw) (hkh : k ≤ ihh)
    (oc oy ox : Nat) (hoc : oc < ocn) (hoy : oy < ihh - k + 1) (hox : ox < iw - k + 1) :
    ({ bnn_conv_layer iw ihh k icn ocn pop with Wbin := W } : BnnConvLayer).out_width
        = iw - k + 1 ∧
    ({ bnn_conv_layer iw ihh k icn ocn pop with Wbin := W } : BnnConvLayer).out_height
        = ihh - k + 1 ∧
    bnn_conv_forward { bnn_conv_layer iw ihh k icn ocn pop with Wbin := W } vin out0
        (oc * (ihh - k + 1) * (iw - k + 1) + oy * (iw - k + 1) + ox)
      = ((∑ ic ∈ Finset.range icn, ∑ ky ∈ Finset.range k, ∑ kx ∈ Finset.range k,
          conv_match pop
            (W.getD (oc * (k * k * icn) + ic * (k * k) + ky * k + kx) false)
            ((float2bipolar vin (List.replicate vin.length false)).getD
              (ic * (iw * ihh) + oy * iw + ox + ky * iw + kx) false) : Int) : ℚ) := by
  refine ⟨rfl, rfl, ?_⟩
  have happ := bnn_conv_forward_apply { bnn_conv_layer iw ihh k icn ocn pop with Wbin := W }
    vin out0 oc oy ox hoc hoy hox
  rw [conv_acc_eq_sum] at happ
  simp only [bnn_conv_layer] at happ
  simp only [bnn_conv_layer]
  rw [happ]
  congr 1
  apply Finset.sum_congr rfl
  intro ic _
  apply Finset.sum_congr rfl
  intro ky _
  apply Finset.sum_congr rfl
  intro kx _
  have hidx : k * k * ic = ic * (k * k) := by ring
  rw [hidx]

/-- Witness for C4 at a concrete 2×2 input, 1×1 kernel layer. -/
theorem bnn_conv_forward_geometry_index_witness :
    ((1 : Nat) ≤ 2) ∧ ((1 : Nat) ≤ 2) ∧ (0 < 1) ∧ (0 < 2 - 1 + 1) ∧ (0 < 2 - 1 + 1) ∧
    (({ bnn_conv_layer 2 2 1 1 1 false with Wbin := [true] } : BnnConvLayer).out_width
        = 2 - 1 + 1 ∧
      ({ bnn_conv_layer 2 2 1 1 1 false with Wbin := [true] } : BnnConvLayer).out_height
        = 2 - 1 + 1 ∧
      bnn_conv_forward { bnn_conv_layer 2 2 1 1 1 false with Wbin := [true] } [1, -2, 3, -4]
          (fun _ => (0 : ℚ)) (0 * (2 - 1 + 1) * (2 - 1 + 1) + 0 * (2 - 1 + 1) + 0)
        = ((∑ ic ∈ Finset.range 1, ∑ ky ∈ Finset.range 1, ∑ kx ∈ Finset.range 1,
            conv_match false
              (([true] : List Bool).getD (0 * (1 * 1 * 1) + ic * (1 * 1) + ky * 1 + kx) false)
              ((float2bipolar [1, -2, 3, -4]
                  (List.replicate ([1, -2, 3, -4] : List ℚ).length false)).getD
                (ic * (2 * 2) + 0 * 2 + 0 + ky * 2 + kx) false) : Int) : ℚ)) :=
  ⟨by decide, by decide, by decide, by decide, by decide,
    bnn_conv_forward_geometry_index 2 2 1 1 1 false [true] [1, -2, 3, -4] (fun _ => (0 : ℚ))
      (by decide) (by decide) 0 0 0 (by decide) (by decide) (by decide)⟩
